import Mathlib

/-!
# Verification of the hit-resolution / entity-lifecycle core (sample_benchmark.cpp)

Shallow embedding of the combat pipeline of the Box2D sandbox sample
(`src/samples/sample_benchmark.cpp`).  Times (`ImGui::GetTime()`, durations,
cooldowns) are modelled as rationals, handles (`b2BodyId`/`b2JointId` stored
ids) as naturals, and the `std::unordered_map` registries as association
lists with first-match lookup.  Engine-side queries (`BodyValid`,
`b2Body_GetLinearVelocity`, ...) are passed in as an explicit `Engine`
record of query functions, since the physics engine is an external
collaborator.
-/

namespace HitPipeline

/-- Association-list lookup (first match), modelling `std::unordered_map::find`. -/
def lookupA {α : Type} : List (Nat × α) → Nat → Option α
  | [], _ => none
  | (k, v) :: l, k' => if k = k' then some v else lookupA l k'

/-- Association-list erase, modelling `std::unordered_map::erase(key)`. -/
def eraseA {α : Type} : List (Nat × α) → Nat → List (Nat × α)
  | [], _ => []
  | (k, v) :: l, k' => if k = k' then eraseA l k' else (k, v) :: eraseA l k'

/-- Association-list overwrite, modelling `map[key] = value`. -/
def insertA {α : Type} (m : List (Nat × α)) (k : Nat) (v : α) : List (Nat × α) :=
  (k, v) :: eraseA m k

/-- Keys of an association list. -/
def keysA {α : Type} (m : List (Nat × α)) : List Nat := m.map Prod.fst

/-!
## Pair gating (ProcessHitSensors, lines 5198-5216 and 5527-5570)

Per (victim character, attacker body) pair the code keeps
`m_pairOverlap[pk] : int` (number of concurrently touching fixture pairs;
an absent map entry behaves as 0 because `operator[]` default-inserts 0 and
the entry is erased exactly when the counter returns to 0) and
`m_damageCooldown[pk] : double` (the next time damage is allowed; absent
entry behaves as 0.0).
-/

/-- State of one (victim, attacker) pair: `m_pairOverlap[pk]` and
`m_damageCooldown[pk]`. -/
structure PairGate where
  overlap : Int
  nextAllowedTime : ℚ
  deriving Repr, DecidableEq

/-- A fresh pair: no overlap entry, no cooldown entry. -/
def PairGate.init : PairGate := ⟨0, 0⟩

/-- Begin-touch handling for one pair (lines 5201-5216):
`firstEnter := (overlap == 0)`, increment overlap,
`allowDamage := firstEnter && now >= nextAllowedTime`, and on success
`nextAllowedTime := now + cooldown`.  Returns the new state and
`allowDamage`. -/
def beginTouch (s : PairGate) (now cooldown : ℚ) : PairGate × Bool :=
  let firstEnter := s.overlap = 0
  let allowDamage := firstEnter ∧ now ≥ s.nextAllowedTime
  ( { overlap := s.overlap + 1,
      nextAllowedTime := if allowDamage then now + cooldown else s.nextAllowedTime },
    decide allowDamage )

/-- End-touch handling for one pair (lines 5564-5569):
`overlap := max 0 (overlap - 1)`; the entry is erased when it reaches 0,
which is the same as the counter being 0. -/
def endTouch (s : PairGate) : PairGate :=
  { s with overlap := max 0 (s.overlap - 1) }

/-- One sensor event touching this pair: a fixture begin-touch (with the
current time and the attacker weapon's cooldown) or a fixture end-touch. -/
inductive PairEvent where
  | beginT (now cooldown : ℚ)
  | endT
  deriving Repr, DecidableEq

/-- Process one event for the pair. -/
def stepEvent (s : PairGate) : PairEvent → PairGate × Bool
  | .beginT now cd => beginTouch s now cd
  | .endT => (endTouch s, false)

/-- Number of allowed damage applications over a list of events. -/
def runCount (s : PairGate) : List PairEvent → Nat
  | [] => 0
  | e :: es => (if (stepEvent s e).2 then 1 else 0) + runCount (stepEvent s e).1 es

/-- Number of "rearm" transitions in a run: events after which the pair's
overlap counter returns to 0 (the end-touch that erases the pair entry). -/
def countRearms (s : PairGate) : List PairEvent → Nat
  | [] => 0
  | e :: es =>
    (if 0 < s.overlap ∧ ((stepEvent s e).1).overlap = 0 then 1 else 0)
      + countRearms (stepEvent s e).1 es

theorem beginTouch_overlap (s : PairGate) (now cd : ℚ) :
    ((beginTouch s now cd).1).overlap = s.overlap + 1 := rfl

theorem beginTouch_allow_iff (s : PairGate) (now cd : ℚ) :
    (beginTouch s now cd).2 = true ↔ s.overlap = 0 ∧ now ≥ s.nextAllowedTime := by
  simp [beginTouch]

theorem beginTouch_next_of_allow (s : PairGate) (now cd : ℚ)
    (h : (beginTouch s now cd).2 = true) :
    ((beginTouch s now cd).1).nextAllowedTime = now + cd := by
  rw [beginTouch_allow_iff] at h
  simp [beginTouch, h.1, h.2]

theorem beginTouch_next_of_not_allow (s : PairGate) (now cd : ℚ)
    (h : (beginTouch s now cd).2 = false) :
    ((beginTouch s now cd).1).nextAllowedTime = s.nextAllowedTime := by
  by_cases h1 : s.overlap = 0 ∧ now ≥ s.nextAllowedTime
  · have := (beginTouch_allow_iff s now cd).mpr h1
    rw [this] at h; cases h
  · simp [beginTouch, h1]

theorem endTouch_overlap (s : PairGate) :
    (endTouch s).overlap = max 0 (s.overlap - 1) := rfl

/-- Key inductive bound: the number of allowed damage applications in a run
is at most the number of rearms plus one extra application available only
when the pair starts rearmed (overlap 0). -/
theorem runCount_le_rearms (evs : List PairEvent) :
    ∀ s : PairGate, 0 ≤ s.overlap →
      runCount s evs ≤ countRearms s evs + (if s.overlap = 0 then 1 else 0) := by
  induction evs with
  | nil => intro s _; simp [runCount, countRearms]
  | cons e es ih =>
    intro s hs
    cases e with
    | beginT now cd =>
      have hov : ((stepEvent s (.beginT now cd)).1).overlap = s.overlap + 1 := rfl
      have hs' : 0 ≤ ((stepEvent s (.beginT now cd)).1).overlap := by rw [hov]; omega
      have hIH := ih ((stepEvent s (.beginT now cd)).1) hs'
      simp only [runCount, countRearms]
      have hnot : ¬ (0 < s.overlap ∧ ((stepEvent s (.beginT now cd)).1).overlap = 0) := by
        rw [hov]; omega
      rw [if_neg hnot]
      have h1 : ¬ (((stepEvent s (.beginT now cd)).1).overlap = 0) := by rw [hov]; omega
      rw [if_neg h1] at hIH
      by_cases hb : (stepEvent s (.beginT now cd)).2 = true
      · have h0 : s.overlap = 0 := ((beginTouch_allow_iff s now cd).mp hb).1
        rw [if_pos hb, if_pos h0]
        omega
      · rw [if_neg hb]
        by_cases h0 : s.overlap = 0
        · rw [if_pos h0]; omega
        · rw [if_neg h0]; omega
    | endT =>
      have hov : ((stepEvent s .endT).1).overlap = max 0 (s.overlap - 1) := rfl
      have hs' : 0 ≤ ((stepEvent s .endT).1).overlap := by rw [hov]; omega
      have hIH := ih ((stepEvent s .endT).1) hs'
      simp only [runCount, countRearms]
      have hb : (stepEvent s .endT).2 = false := rfl
      rw [hb]
      simp only [Bool.false_eq_true, if_false]
      by_cases h0 : s.overlap = 0
      · have hz : ((stepEvent s .endT).1).overlap = 0 := by rw [hov]; omega
        have hnot : ¬ (0 < s.overlap ∧ ((stepEvent s .endT).1).overlap = 0) := by omega
        rw [if_neg hnot, if_pos h0]
        rw [if_pos hz] at hIH
        omega
      · by_cases h1 : s.overlap = 1
        · have hz : ((stepEvent s .endT).1).overlap = 0 := by rw [hov]; omega
          have hyes : (0 < s.overlap ∧ ((stepEvent s .endT).1).overlap = 0) := by omega
          rw [if_pos hyes, if_neg h0]
          rw [if_pos hz] at hIH
          omega
        · have hz : ¬ ((stepEvent s .endT).1).overlap = 0 := by rw [hov]; omega
          have hnot : ¬ (0 < s.overlap ∧ ((stepEvent s .endT).1).overlap = 0) := by omega
          rw [if_neg hnot, if_neg h0]
          rw [if_neg hz] at hIH
          omega

theorem beginTouch_next_monotone (s : PairGate) (now cd : ℚ) (hcd : 0 ≤ cd) :
    s.nextAllowedTime ≤ ((beginTouch s now cd).1).nextAllowedTime := by
  by_cases hb : (beginTouch s now cd).2 = true
  · have h := (beginTouch_allow_iff s now cd).mp hb
    rw [beginTouch_next_of_allow s now cd hb]
    linarith [h.2]
  · rw [Bool.not_eq_true] at hb
    rw [beginTouch_next_of_not_allow s now cd hb]

/-- C1: a begin-touch event may apply damage only when the pair's overlap
counter was zero before being incremented (first enter) AND the current
time is at least the pair's cooldown expiry; expiry is set to
`now + cooldown` exactly when the gate opens (it is left unchanged
otherwise, and never decreases for nonnegative cooldowns); each end-touch
decrements the counter, clamped at zero (the erased map entry behaving as
counter 0); and over any event sequence the number of damage applications
is bounded by the number of full end-touch "rearm" cycles plus at most one
initial application — so dealing damage again requires a full
end-touch/begin-touch cycle even if the cooldown expired mid-overlap. -/
theorem c1_pair_damage_gating :
    (∀ (s : PairGate) (now cd : ℚ),
        ((beginTouch s now cd).2 = true ↔ s.overlap = 0 ∧ now ≥ s.nextAllowedTime)
      ∧ ((beginTouch s now cd).1).overlap = s.overlap + 1
      ∧ ((beginTouch s now cd).2 = true →
            ((beginTouch s now cd).1).nextAllowedTime = now + cd)
      ∧ ((beginTouch s now cd).2 = false →
            ((beginTouch s now cd).1).nextAllowedTime = s.nextAllowedTime)
      ∧ (0 ≤ cd → s.nextAllowedTime ≤ ((beginTouch s now cd).1).nextAllowedTime))
  ∧ (∀ s : PairGate, (endTouch s).overlap = max 0 (s.overlap - 1))
  ∧ (∀ (evs : List PairEvent) (s : PairGate), 0 ≤ s.overlap →
        runCount s evs ≤ countRearms s evs + (if s.overlap = 0 then 1 else 0)) := by
  refine ⟨fun s now cd => ⟨beginTouch_allow_iff s now cd, beginTouch_overlap s now cd,
      beginTouch_next_of_allow s now cd, beginTouch_next_of_not_allow s now cd,
      beginTouch_next_monotone s now cd⟩,
    endTouch_overlap, fun evs s hs => runCount_le_rearms evs s hs⟩

/-- Concrete instantiation of `c1_pair_damage_gating`: from a fresh pair at
time 2 with cooldown 1, the gate opens, the expiry becomes 3, and the run
bound holds on a two-begin trace. -/
theorem c1_pair_damage_gating_witness :
    (beginTouch PairGate.init 2 1).2 = true
  ∧ ((beginTouch PairGate.init 2 1).1).nextAllowedTime = 2 + 1
  ∧ runCount PairGate.init [PairEvent.beginT 2 1, PairEvent.beginT 3 1] ≤
      countRearms PairGate.init [PairEvent.beginT 2 1, PairEvent.beginT 3 1]
        + (if PairGate.init.overlap = 0 then 1 else 0) := by
  have h := c1_pair_damage_gating
  have hallow : (beginTouch PairGate.init 2 1).2 = true :=
    (h.1 PairGate.init 2 1).1.mpr ⟨rfl, by norm_num [PairGate.init]⟩
  exact ⟨hallow, (h.1 PairGate.init 2 1).2.2.1 hallow,
    h.2.2 [PairEvent.beginT 2 1, PairEvent.beginT 3 1] PairGate.init
      (by norm_num [PairGate.init])⟩

/-!
## Freeze manager (FreezeBodyAndJoint, lines 6767-6813; IsBodyCurrentlyFrozen,
lines 8100-8106; FreezeData, lines 4355-4372)

Engine-side queries are abstracted as a record of functions; the freeze
functions below model the transformation of `m_activeFreezes` (the engine
side effects — zeroing velocities, sleeping the body, disabling the motor —
mutate the external physics world, not the freeze registry).
-/

/-- Black-box physics-engine queries used by the freeze path. -/
structure Engine where
  bodyValid : Nat → Bool
  isProjectileBodyFast : Nat → Bool
  linearVelocity : Nat → ℚ × ℚ
  angularVelocity : Nat → ℚ
  isAwake : Nat → Bool
  sleepThreshold : Nat → ℚ
  jointValid : Nat → Bool
  jointIsRevolute : Nat → Bool
  motorEnabled : Nat → Bool
  motorSpeed : Nat → ℚ
  maxMotorTorque : Nat → ℚ

/-- `struct FreezeData` (lines 4355-4372), with the C++ field defaults. -/
structure FreezeData where
  body : Nat
  joint : Option Nat := none
  savedLinearVelocity : ℚ × ℚ := (0, 0)
  savedAngularVelocity : ℚ := 0
  hadMotor : Bool := false
  motorWasEnabled : Bool := false
  savedMotorSpeed : ℚ := 0
  savedMaxMotorTorque : ℚ := 0
  endTime : ℚ := 0
  wasAwake : Bool := true
  savedSleepThreshold : ℚ := 0
  deriving Repr, DecidableEq

/-- `IsBodyCurrentlyFrozen` (lines 8100-8106): some active freeze record
has this body. -/
def isBodyCurrentlyFrozen (fl : List FreezeData) (body : Nat) : Bool :=
  fl.any (fun f => f.body = body)

/-- First active freeze record for a body, mirroring the order in which the
C++ `for` loops scan `m_activeFreezes`. -/
def findFreeze : List FreezeData → Nat → Option FreezeData
  | [], _ => none
  | f :: l, body => if f.body = body then some f else findFreeze l body

/-- The snapshot pushed by `FreezeBodyAndJoint` for a not-yet-frozen body
(lines 6785-6812): saved velocities / sleep state, the new expiry, and the
motor snapshot when the joint is a valid revolute joint. -/
def freezeSnapshot (eng : Engine) (body : Nat) (joint : Option Nat)
    (newEndTime : ℚ) : FreezeData :=
  let base : FreezeData :=
    { body := body, joint := joint,
      savedLinearVelocity := eng.linearVelocity body,
      savedAngularVelocity := eng.angularVelocity body,
      endTime := newEndTime,
      wasAwake := eng.isAwake body,
      savedSleepThreshold := eng.sleepThreshold body }
  match joint with
  | some j =>
    if eng.jointValid j && eng.jointIsRevolute j then
      { base with hadMotor := true, motorWasEnabled := eng.motorEnabled j,
                  savedMotorSpeed := eng.motorSpeed j,
                  savedMaxMotorTorque := eng.maxMotorTorque j }
    else base
  | none => base

/-- The already-frozen branch (lines 6776-6783): scan `m_activeFreezes`,
and on the first record with this body extend its expiry to
`max f.endTime newEndTime`, leaving everything else untouched. -/
def extendFreezeFirst (body : Nat) (newEndTime : ℚ) :
    List FreezeData → Option (List FreezeData)
  | [] => none
  | f :: l =>
    if f.body = body then some ({ f with endTime := max f.endTime newEndTime } :: l)
    else (extendFreezeFirst body newEndTime l).map (f :: ·)

/-- `FreezeBodyAndJoint` (lines 6767-6813) as a transformation of
`m_activeFreezes`. -/
def freezeBodyAndJoint (eng : Engine) (activeFreezes : List FreezeData)
    (body : Nat) (joint : Option Nat) (duration now : ℚ) : List FreezeData :=
  if !eng.bodyValid body then activeFreezes
  else if eng.isProjectileBodyFast body then activeFreezes
  else
    let newEndTime := now + duration
    match extendFreezeFirst body newEndTime activeFreezes with
    | some l => l
    | none => activeFreezes ++ [freezeSnapshot eng body joint newEndTime]

theorem extendFreezeFirst_eq_none (body : Nat) (t : ℚ) :
    ∀ fl : List FreezeData, (∀ g ∈ fl, g.body ≠ body) →
      extendFreezeFirst body t fl = none := by
  intro fl
  induction fl with
  | nil => intro _; rfl
  | cons f l ih =>
    intro h
    have hf : f.body ≠ body := h f (List.mem_cons_self f l)
    have hl : ∀ g ∈ l, g.body ≠ body := fun g hg => h g (List.mem_cons_of_mem f hg)
    simp [extendFreezeFirst, hf, ih hl]

theorem extendFreezeFirst_split (body : Nat) (t : ℚ) (pre post : List FreezeData)
    (f : FreezeData) (hf : f.body = body) (hpre : ∀ g ∈ pre, g.body ≠ body) :
    extendFreezeFirst body t (pre ++ f :: post) =
      some (pre ++ { f with endTime := max f.endTime t } :: post) := by
  induction pre with
  | nil => simp [extendFreezeFirst, hf]
  | cons g l ih =>
    have hg : g.body ≠ body := hpre g (List.mem_cons_self g l)
    have hl : ∀ x ∈ l, x.body ≠ body := fun x hx => hpre x (List.mem_cons_of_mem g hx)
    simp [extendFreezeFirst, hg, ih hl]

theorem findFreeze_append_right (body : Nat) (fl : List FreezeData)
    (h : ∀ g ∈ fl, g.body ≠ body) (x : FreezeData) (hx : x.body = body) :
    findFreeze (fl ++ [x]) body = some x := by
  induction fl with
  | nil => simp [findFreeze, hx]
  | cons f l ih =>
    have hf : f.body ≠ body := h f (List.mem_cons_self f l)
    have hl : ∀ g ∈ l, g.body ≠ body := fun g hg => h g (List.mem_cons_of_mem f hg)
    simp [findFreeze, hf, ih hl]

theorem not_frozen_forall {fl : List FreezeData} {body : Nat}
    (h : isBodyCurrentlyFrozen fl body = false) : ∀ g ∈ fl, g.body ≠ body := by
  intro g hg
  simp only [isBodyCurrentlyFrozen, List.any_eq_false, decide_eq_true_eq] at h
  exact h g hg

/-- C4: on an already-frozen body `FreezeBodyAndJoint` only raises the
first matching record's expiry to `max current (now + duration)` and
changes nothing else (neither the record's other fields, the other
records, nor the list shape); consequently `Freeze(b,d1); Freeze(b,d2)` at
one instant on a fresh body yields expiry `now + max d1 d2`, and extending
a freeze never shortens its expiry and never stackCnt durations. -/
theorem c4_freeze_extend :
    (∀ (eng : Engine) (pre post : List FreezeData) (f : FreezeData)
        (body : Nat) (j : Option Nat) (d now : ℚ),
        eng.bodyValid body = true → eng.isProjectileBodyFast body = false →
        f.body = body → (∀ g ∈ pre, g.body ≠ body) →
        freezeBodyAndJoint eng (pre ++ f :: post) body j d now =
          pre ++ { f with endTime := max f.endTime (now + d) } :: post)
  ∧ (∀ (eng : Engine) (fl : List FreezeData) (body : Nat)
        (j1 j2 : Option Nat) (d1 d2 now : ℚ),
        eng.bodyValid body = true → eng.isProjectileBodyFast body = false →
        isBodyCurrentlyFrozen fl body = false →
        ∃ f' : FreezeData,
          findFreeze
            (freezeBodyAndJoint eng
              (freezeBodyAndJoint eng fl body j1 d1 now) body j2 d2 now) body
            = some f' ∧ f'.endTime = now + max d1 d2) := by
  constructor
  · intro eng pre post f body j d now hv hp hf hpre
    simp only [freezeBodyAndJoint, hv, hp, Bool.not_true, Bool.false_eq_true,
      if_false, ite_false]
    rw [extendFreezeFirst_split body (now + d) pre post f hf hpre]
  · intro eng fl body j1 j2 d1 d2 now hv hp hfr
    have hall : ∀ g ∈ fl, g.body ≠ body := not_frozen_forall hfr
    have h1 : freezeBodyAndJoint eng fl body j1 d1 now =
        fl ++ [freezeSnapshot eng body j1 (now + d1)] := by
      simp only [freezeBodyAndJoint, hv, hp, Bool.not_true, Bool.false_eq_true,
        if_false, ite_false]
      rw [extendFreezeFirst_eq_none body (now + d1) fl hall]
    have hsnap : (freezeSnapshot eng body j1 (now + d1)).body = body := by
      simp only [freezeSnapshot]
      cases j1 with
      | none => rfl
      | some j => by_cases hj : eng.jointValid j && eng.jointIsRevolute j <;> simp [hj]
    have hsnapEnd : (freezeSnapshot eng body j1 (now + d1)).endTime = now + d1 := by
      simp only [freezeSnapshot]
      cases j1 with
      | none => rfl
      | some j => by_cases hj : eng.jointValid j && eng.jointIsRevolute j <;> simp [hj]
    have h2 : freezeBodyAndJoint eng (fl ++ [freezeSnapshot eng body j1 (now + d1)])
        body j2 d2 now =
        fl ++ { freezeSnapshot eng body j1 (now + d1) with
                  endTime := max (freezeSnapshot eng body j1 (now + d1)).endTime
                    (now + d2) } :: [] := by
      simp only [freezeBodyAndJoint, hv, hp, Bool.not_true, Bool.false_eq_true,
        if_false, ite_false]
      rw [show fl ++ [freezeSnapshot eng body j1 (now + d1)] =
            fl ++ freezeSnapshot eng body j1 (now + d1) :: [] from rfl,
          extendFreezeFirst_split body (now + d2) fl [] _ hsnap hall]
    refine ⟨{ freezeSnapshot eng body j1 (now + d1) with
        endTime := max (freezeSnapshot eng body j1 (now + d1)).endTime (now + d2) },
      ?_, ?_⟩
    · rw [h1, h2]
      exact findFreeze_append_right body fl hall _ (by simpa using hsnap)
    · simp only [hsnapEnd]
      rcases le_total d1 d2 with h | h
      · rw [max_eq_right h, max_eq_right (by linarith : now + d1 ≤ now + d2)]
      · rw [max_eq_left h, max_eq_left (by linarith : now + d2 ≤ now + d1)]

/-- Concrete instantiation of `c4_freeze_extend`: a trivially-valid engine,
body 1, durations 2 and 5 at time 10: the double freeze leaves one record
with expiry 15, and extending a record with expiry 4 by duration 2 at time
10 yields `max 4 12 = 12`. -/
theorem c4_freeze_extend_witness :
    (freezeBodyAndJoint
        ⟨fun _ => true, fun _ => false, fun _ => (0, 0), fun _ => 0, fun _ => true,
         fun _ => 0, fun _ => false, fun _ => false, fun _ => false, fun _ => 0,
         fun _ => 0⟩
        ([] ++ ({ body := 1, endTime := 4 } : FreezeData) :: []) 1 none 2 10 =
      [] ++ ({ body := 1, endTime := max 4 (10 + 2) } : FreezeData) :: [])
  ∧ (∃ f' : FreezeData,
      findFreeze
        (freezeBodyAndJoint
          ⟨fun _ => true, fun _ => false, fun _ => (0, 0), fun _ => 0, fun _ => true,
           fun _ => 0, fun _ => false, fun _ => false, fun _ => false, fun _ => 0,
           fun _ => 0⟩
          (freezeBodyAndJoint
            ⟨fun _ => true, fun _ => false, fun _ => (0, 0), fun _ => 0, fun _ => true,
             fun _ => 0, fun _ => false, fun _ => false, fun _ => false, fun _ => 0,
             fun _ => 0⟩
            [] 1 none 2 10) 1 none 5 10) 1 = some f'
      ∧ f'.endTime = 10 + max 2 5) := by
  constructor
  · exact c4_freeze_extend.1 _ [] [] { body := 1, endTime := 4 } 1 none 2 10
      rfl rfl rfl (by intro g hg; cases hg)
  · exact c4_freeze_extend.2 _ [] 1 none none 2 5 10 rfl rfl rfl

/-!
## Victim hit-freeze with the unarmed special case
(ProcessHitSensors, lines 5436-5456)

When damage succeeded, the victim is frozen unless already frozen; if the
attacker is the special unarmed character, the victim's weapon joint is
left null (`victimJoint` stays `b2_nullJointId`), otherwise it is looked
up through `m_characterWeapon` / `m_weaponToJoint` (abstracted here as the
`victimWeaponJoint` argument).
-/

/-- The victim hit-freeze block (lines 5438-5456). -/
def victimHitFreeze (eng : Engine) (fl : List FreezeData) (skinBody : Nat)
    (attackerIsUnarmed : Bool) (victimWeaponJoint : Option Nat)
    (freezeDuration now : ℚ) : List FreezeData :=
  if isBodyCurrentlyFrozen fl skinBody then fl
  else
    let victimJoint : Option Nat := if attackerIsUnarmed then none else victimWeaponJoint
    freezeBodyAndJoint eng fl skinBody victimJoint freezeDuration now

/-- An engine whose bodies are all valid non-projectiles and whose joints
are all invalid; used to instantiate freeze scenarios. -/
def trivEngine : Engine :=
  ⟨fun _ => true, fun _ => false, fun _ => (0, 0), fun _ => 0, fun _ => true,
   fun _ => 0, fun _ => false, fun _ => false, fun _ => false, fun _ => 0,
   fun _ => 0⟩

/-- C5 counterexample: it is not the case that an unarmed attacker skips
the victim freeze entirely — with a valid, unfrozen victim the freeze list
still grows by a record for the victim's body. -/
theorem c5_unarmed_skips_freeze_counterexample :
    ¬ (∀ (eng : Engine) (fl : List FreezeData) (skinBody : Nat)
          (victimWeaponJoint : Option Nat) (d now : ℚ),
        victimHitFreeze eng fl skinBody true victimWeaponJoint d now = fl) := by
  intro h
  have := h trivEngine [] 1 (some 5) (1/4) 0
  simp only [victimHitFreeze, isBodyCurrentlyFrozen, List.any_nil,
    Bool.false_eq_true, if_false, ite_false] at this
  exact absurd this (by simp [freezeBodyAndJoint, trivEngine, extendFreezeFirst])

/-- C5 (amended): when the attacker is the unarmed character, the victim's
body is still frozen (when not already frozen) — only the weapon joint is
withheld: the pushed freeze record carries a null joint and `hadMotor =
false`, so no weapon-joint motor is disabled.  With an armed attacker the
looked-up joint is passed through, and an already-frozen victim is left
untouched. -/
theorem c5_unarmed_freeze_skips_motor_only :
    (∀ (eng : Engine) (fl : List FreezeData) (skinBody : Nat)
        (vj : Option Nat) (d now : ℚ),
        eng.bodyValid skinBody = true → eng.isProjectileBodyFast skinBody = false →
        isBodyCurrentlyFrozen fl skinBody = false →
        victimHitFreeze eng fl skinBody true vj d now
          = fl ++ [freezeSnapshot eng skinBody none (now + d)]
        ∧ (freezeSnapshot eng skinBody none (now + d)).hadMotor = false
        ∧ (freezeSnapshot eng skinBody none (now + d)).joint = none)
  ∧ (∀ (eng : Engine) (fl : List FreezeData) (skinBody : Nat)
        (vj : Option Nat) (d now : ℚ),
        isBodyCurrentlyFrozen fl skinBody = false →
        victimHitFreeze eng fl skinBody false vj d now
          = freezeBodyAndJoint eng fl skinBody vj d now)
  ∧ (∀ (eng : Engine) (fl : List FreezeData) (skinBody : Nat)
        (u : Bool) (vj : Option Nat) (d now : ℚ),
        isBodyCurrentlyFrozen fl skinBody = true →
        victimHitFreeze eng fl skinBody u vj d now = fl) := by
  refine ⟨?_, ?_, ?_⟩
  · intro eng fl skinBody vj d now hv hp hfr
    have hall : ∀ g ∈ fl, g.body ≠ skinBody := not_frozen_forall hfr
    refine ⟨?_, rfl, rfl⟩
    simp only [victimHitFreeze, hfr, Bool.false_eq_true, if_false, ite_false,
      if_true, ite_true]
    simp only [freezeBodyAndJoint, hv, hp, Bool.not_true, Bool.false_eq_true,
      if_false, ite_false]
    rw [extendFreezeFirst_eq_none skinBody (now + d) fl hall]
  · intro eng fl skinBody vj d now hfr
    simp [victimHitFreeze, hfr]
  · intro eng fl skinBody u vj d now hfr
    simp [victimHitFreeze, hfr]

/-- Concrete instantiation of `c5_unarmed_freeze_skips_motor_only`: unarmed
attacker, unfrozen victim body 1: the freeze list gains exactly the
null-joint record. -/
theorem c5_unarmed_freeze_skips_motor_only_witness :
    victimHitFreeze trivEngine [] 1 true (some 5) (1/4) 0
      = [] ++ [freezeSnapshot trivEngine 1 none (0 + 1/4)]
    ∧ (freezeSnapshot trivEngine 1 none (0 + 1/4)).hadMotor = false := by
  have h := c5_unarmed_freeze_skips_motor_only.1 trivEngine [] 1 (some 5) (1/4) 0
    rfl rfl rfl
  exact ⟨h.1, h.2.1⟩

/-!
## Deferred projectile destruction
(ScheduleProjectileDestroy, lines 6611-6616; the direct
`m_projectilesToDestroyMap[...] = now` assignments in the event handlers,
lines 5275, 5311, 5389, 5512, 5519, 6690, 6694, 6755; flush pass
ProcessProjectileDestructions, lines 5573-5597)
-/

/-- `ScheduleProjectileDestroy` (lines 6611-6616): insert `(id, when)`,
keeping the earlier timestamp if an entry already exists. -/
def scheduleProjectileDestroy (m : List (Nat × ℚ)) (id : Nat) (when : ℚ) :
    List (Nat × ℚ) :=
  match lookupA m id with
  | none => insertA m id when
  | some t => if when < t then insertA m id when else m

/-- The shuriken rebound/destroy decision shared by the skin, wall and
weapon contact handlers (lines 5508-5513, 6686-6691, 6751-6756):
decrement `m_shurikenReboundsLeft[proj]` and, once it goes negative,
assign `m_projectilesToDestroyMap[proj] = now` — an unconditional
overwrite, not a `ScheduleProjectileDestroy` call. -/
def shurikenTouchDestroy (rebounds : Int) (m : List (Nat × ℚ)) (proj : Nat)
    (now : ℚ) : Int × List (Nat × ℚ) :=
  let r := rebounds - 1
  (r, if r < 0 then insertA m proj now else m)

/-- First phase of `ProcessProjectileDestructions` (lines 5575-5587): pop
every entry whose timestamp has arrived; returns the remaining map and the
`toDestroy` list — only these popped bodies get destroyed, at step end. -/
def popDueDestructions (m : List (Nat × ℚ)) (now : ℚ) :
    List (Nat × ℚ) × List Nat :=
  (m.filter (fun e => decide (now < e.2)),
   (m.filter (fun e => decide (now ≥ e.2))).map Prod.fst)

theorem lookupA_insertA_self {α : Type} (m : List (Nat × α)) (k : Nat) (v : α) :
    lookupA (insertA m k v) k = some v := by
  simp [insertA, lookupA]

theorem lookupA_eq_none_of_not_mem_keys {α : Type} :
    ∀ (m : List (Nat × α)) (k : Nat), k ∉ keysA m → lookupA m k = none := by
  intro m
  induction m with
  | nil => intro k _; rfl
  | cons e rest ih =>
    intro k hk
    obtain ⟨k', v⟩ := e
    simp only [keysA, List.map_cons, List.mem_cons] at hk
    push_neg at hk
    simp only [lookupA, if_neg (Ne.symm hk.1)]
    exact ih k (by simpa [keysA] using hk.2)

theorem keysA_filter_subset {α : Type} (p : Nat × α → Bool) :
    ∀ (m : List (Nat × α)) (k : Nat), k ∈ keysA (m.filter p) → k ∈ keysA m := by
  intro m
  induction m with
  | nil => intro k h; simp [keysA] at h
  | cons e rest ih =>
    intro k h
    simp only [keysA, List.map_cons, List.mem_cons]
    by_cases hp : p e
    · simp only [List.filter_cons, hp, if_pos, keysA, List.map_cons,
        List.mem_cons] at h
      rcases h with h | h
      · exact Or.inl h
      · exact Or.inr (ih k (by simpa [keysA] using h))
    · simp only [List.filter_cons, hp] at h
      exact Or.inr (ih k (by simpa [keysA] using h))

/-- Flush behaviour on a map with distinct keys: an entry is popped and
destroyed iff its timestamp has arrived, and survives untouched otherwise. -/
theorem popDueDestructions_spec :
    ∀ (m : List (Nat × ℚ)) (now : ℚ) (id : Nat) (t : ℚ),
      (keysA m).Nodup → lookupA m id = some t →
      (t ≤ now →
        id ∈ (popDueDestructions m now).2 ∧
        lookupA (popDueDestructions m now).1 id = none)
      ∧ (now < t →
        id ∉ (popDueDestructions m now).2 ∧
        lookupA (popDueDestructions m now).1 id = some t) := by
  intro m
  induction m with
  | nil => intro now id t _ hl; cases hl
  | cons e rest ih =>
    intro now id t hnd hl
    obtain ⟨k, t'⟩ := e
    have hnd' : (keysA rest).Nodup := by
      simpa [keysA] using hnd.of_cons
    have hknotin : k ∉ keysA rest := by
      have := hnd
      simp only [keysA, List.map_cons, List.nodup_cons] at this
      simpa [keysA] using this.1
    by_cases hk : k = id
    · subst hk
      have ht : t' = t := by
        simpa [lookupA] using hl
      subst ht
      constructor
      · intro hle
        constructor
        · simp [popDueDestructions, List.filter_cons, hle]
        · have hnot : ¬ (now < t') := not_lt.mpr hle
          simp only [popDueDestructions, List.filter_cons, decide_eq_true_eq,
            hnot, if_false, ite_false]
          exact lookupA_eq_none_of_not_mem_keys _ k
            (fun hmem => hknotin (keysA_filter_subset _ rest k hmem))
      · intro hlt
        constructor
        · have hnot : ¬ (now ≥ t') := not_le.mpr hlt
          simp only [popDueDestructions, List.filter_cons, decide_eq_true_eq,
            hnot, if_false, ite_false]
          intro hmem
          have : k ∈ keysA (rest.filter (fun e => decide (now ≥ e.2))) := by
            simpa [keysA] using hmem
          exact hknotin (keysA_filter_subset _ rest k this)
        · simp [popDueDestructions, List.filter_cons, hlt, lookupA]
    · have hl' : lookupA rest id = some t := by
        simpa [lookupA, hk] using hl
      have hih := ih now id t hnd' hl'
      constructor
      · intro hle
        refine ⟨?_, ?_⟩
        · have := (hih.1 hle).1
          by_cases hd : now ≥ t' <;>
            simp only [popDueDestructions, List.filter_cons, decide_eq_true_eq,
              hd, if_true, ite_true, if_false, ite_false, List.map_cons,
              List.mem_cons] at this ⊢ <;>
            [exact Or.inr (by simpa [popDueDestructions] using this);
             exact (by simpa [popDueDestructions] using this)]
        · have := (hih.1 hle).2
          by_cases hd : now < t' <;>
            simp only [popDueDestructions, List.filter_cons, decide_eq_true_eq,
              hd, if_true, ite_true, if_false, ite_false, lookupA,
              if_neg hk] at this ⊢ <;>
            simpa [popDueDestructions] using this
      · intro hlt
        refine ⟨?_, ?_⟩
        · have := (hih.2 hlt).1
          by_cases hd : now ≥ t' <;>
            simp only [popDueDestructions, List.filter_cons, decide_eq_true_eq,
              hd, if_true, ite_true, if_false, ite_false, List.map_cons,
              List.mem_cons] at this ⊢
          · rintro (h | h)
            · exact hk h.symm
            · exact this (by simpa [popDueDestructions] using h)
          · intro h
            exact this (by simpa [popDueDestructions] using h)
        · have := (hih.2 hlt).2
          by_cases hd : now < t' <;>
            simp only [popDueDestructions, List.filter_cons, decide_eq_true_eq,
              hd, if_true, ite_true, if_false, ite_false, lookupA,
              if_neg hk] at this ⊢ <;>
            simpa [popDueDestructions] using this

/-- C6 counterexample: it is not true that every destroy decision keeps
the earliest of the existing and newly requested timestamps.  The shuriken
contact path assigns `now` unconditionally: starting from a map holding
`(7, 1)` (scheduled at time 1 by an earlier touch), a further contact at
time 2 with the rebound counter already negative leaves timestamp 2, not
`min 2 1 = 1`. -/
theorem c6_earliest_timestamp_counterexample :
    ¬ (∀ (rebounds : Int) (m : List (Nat × ℚ)) (proj : Nat) (now t : ℚ),
        lookupA m proj = some t → rebounds - 1 < 0 →
        lookupA ((shurikenTouchDestroy rebounds m proj now).2) proj
          = some (min now t)) := by
  intro h
  have := h (-1) [(7, 1)] 7 2 1 rfl (by norm_num)
  rw [show min (2:ℚ) 1 = 1 by norm_num] at this
  simp only [shurikenTouchDestroy] at this
  norm_num [insertA, eraseA, lookupA] at this

/-- C6 (amended): projectile destruction is never performed synchronously
inside event handling — every destroy decision only writes a
`(handle, timestamp)` entry into the schedule map, and the body is
destroyed only by the flush pass popping entries whose timestamp has
arrived.  The `ScheduleProjectileDestroy` helper keeps the earliest of the
existing and newly requested timestamps, but the direct
`m_projectilesToDestroyMap[h] = now` handler paths (modelled here by the
shuriken contact path) overwrite the entry with the current time
unconditionally. -/
theorem c6_deferred_destruction :
    (∀ (m : List (Nat × ℚ)) (id : Nat) (when : ℚ),
        (lookupA m id = none →
          lookupA (scheduleProjectileDestroy m id when) id = some when)
      ∧ (∀ t, lookupA m id = some t →
          lookupA (scheduleProjectileDestroy m id when) id = some (min when t)))
  ∧ (∀ (rebounds : Int) (m : List (Nat × ℚ)) (proj : Nat) (now : ℚ),
        (rebounds - 1 < 0 →
          (shurikenTouchDestroy rebounds m proj now).2 = insertA m proj now
          ∧ lookupA ((shurikenTouchDestroy rebounds m proj now).2) proj = some now)
      ∧ (0 ≤ rebounds - 1 → (shurikenTouchDestroy rebounds m proj now).2 = m))
  ∧ (∀ (m : List (Nat × ℚ)) (now : ℚ) (id : Nat) (t : ℚ),
        (keysA m).Nodup → lookupA m id = some t →
        (t ≤ now →
          id ∈ (popDueDestructions m now).2 ∧
          lookupA (popDueDestructions m now).1 id = none)
        ∧ (now < t →
          id ∉ (popDueDestructions m now).2 ∧
          lookupA (popDueDestructions m now).1 id = some t)) := by
  refine ⟨?_, ?_, popDueDestructions_spec⟩
  · intro m id when
    constructor
    · intro hnone
      simp [scheduleProjectileDestroy, hnone, lookupA_insertA_self]
    · intro t ht
      simp only [scheduleProjectileDestroy, ht]
      by_cases hlt : when < t
      · rw [if_pos hlt, lookupA_insertA_self, min_eq_left (le_of_lt hlt)]
      · rw [if_neg hlt, min_eq_right (le_of_not_lt hlt), ht]
  · intro rebounds m proj now
    constructor
    · intro hneg
      refine ⟨?_, ?_⟩
      · simp [shurikenTouchDestroy, hneg]
      · simp [shurikenTouchDestroy, hneg, lookupA_insertA_self]
    · intro hpos
      simp [shurikenTouchDestroy, not_lt.mpr hpos]

/-- Concrete instantiation of `c6_deferred_destruction`: scheduling id 7
twice keeps the earlier timestamp, the shuriken overwrite path writes the
current time, and the flush pops exactly the due entry. -/
theorem c6_deferred_destruction_witness :
    lookupA (scheduleProjectileDestroy [(7, (1:ℚ))] 7 3) 7 = some (min 3 1)
  ∧ lookupA ((shurikenTouchDestroy (-1) [(7, (1:ℚ))] 7 2).2) 7 = some 2
  ∧ (7 ∈ (popDueDestructions [(7, (1:ℚ))] 2).2
      ∧ lookupA (popDueDestructions [(7, (1:ℚ))] 2).1 7 = none) := by
  have h := c6_deferred_destruction
  refine ⟨(h.1 [(7, (1:ℚ))] 7 3).2 1 rfl, ((h.2.1 (-1) [(7, (1:ℚ))] 7 2).1
    (by norm_num)).2, (h.2.2 [(7, (1:ℚ))] 2 7 1 (by simp [keysA]) rfl).1
    (by norm_num)⟩

/-!
## Shuriken rebounds
(RegisterProjectile, lines 6572-6575; wall/weapon contact handlers,
lines 6686-6691 and 6751-6756; skin hit path, lines 5269-5276 and
5506-5513)
-/

/-- `RegisterProjectile` for a shuriken (line 6574):
`m_shurikenReboundsLeft[proj] = 1 + m_shurikenBonusRebounds`. -/
def registerShurikenRebounds (bonusRebounds : Int) : Int := 1 + bonusRebounds

/-- A sequence of wall/weapon first-enter touches at the given times, each
running the shared decrement-and-maybe-schedule step. -/
def runShurikenTouches (r : Int) (m : List (Nat × ℚ)) (proj : Nat) :
    List ℚ → Int × List (Nat × ℚ)
  | [] => (r, m)
  | now :: rest =>
    runShurikenTouches (shurikenTouchDestroy r m proj now).1
      (shurikenTouchDestroy r m proj now).2 proj rest

/-- The hit-sensor path for a shuriken touching a character skin on first
enter (lines 5269-5276 then 5506-5513): when the hit dealt damage, the
bonus-rebound counter grows by the HP lost and the shuriken is scheduled
for destruction immediately; independently the first-enter branch
decrements the rebound counter and schedules once it goes negative.
Returns (new bonus counter, new rebounds left, new schedule map). -/
def shurikenSkinFirstEnterTouch (bonusRebounds : Int) (dealtDamage : Bool)
    (hpLost r : Int) (m : List (Nat × ℚ)) (proj : Nat) (now : ℚ) :
    Int × Int × List (Nat × ℚ) :=
  let bonus' := if dealtDamage ∧ 0 < hpLost then bonusRebounds + hpLost
                else bonusRebounds
  let m' := if dealtDamage then insertA m proj now else m
  let r' := r - 1
  let m'' := if r' < 0 then insertA m' proj now else m'
  (bonus', r', m'')

theorem runShurikenTouches_no_schedule (proj : Nat) :
    ∀ (times : List ℚ) (r : Int) (m : List (Nat × ℚ)),
      (times.length : Int) ≤ r →
      runShurikenTouches r m proj times = (r - times.length, m) := by
  intro times
  induction times with
  | nil => intro r m _; simp [runShurikenTouches]
  | cons now rest ih =>
    intro r m hlen
    simp only [List.length_cons, Nat.cast_add, Nat.cast_one] at hlen
    have h1 : ¬ (r - 1 < 0) := by
      have : (0:Int) ≤ (rest.length : Int) := Int.ofNat_nonneg _
      omega
    simp only [runShurikenTouches, shurikenTouchDestroy, if_neg h1]
    rw [ih (r - 1) m (by omega)]
    have : r - 1 - (rest.length : Int) = r - ((now :: rest).length : Int) := by
      simp only [List.length_cons]
      push_cast
      ring
    rw [this]

theorem runShurikenTouches_append (proj : Nat) :
    ∀ (ts ts' : List ℚ) (r : Int) (m : List (Nat × ℚ)),
      runShurikenTouches r m proj (ts ++ ts') =
        runShurikenTouches (runShurikenTouches r m proj ts).1
          (runShurikenTouches r m proj ts).2 proj ts' := by
  intro ts
  induction ts with
  | nil => intro ts' r m; rfl
  | cons now rest ih =>
    intro ts' r m
    simp only [List.cons_append, runShurikenTouches]
    exact ih ts' _ _

/-- C7 counterexample: a shuriken spawned with bonus counter 0 (so one
rebound left) does not survive its first skin first-enter touch when that
touch deals damage — the damage branch schedules destruction immediately,
so the schedule map is nonempty after touch one, not after touch two. -/
theorem c7_damaging_skin_touch_counterexample :
    (shurikenSkinFirstEnterTouch 0 true 1 (registerShurikenRebounds 0)
        [] 7 2).2.2 ≠ [] := by
  simp [shurikenSkinFirstEnterTouch, registerShurikenRebounds, insertA, eraseA]

/-- C7 (amended): a shuriken spawned when the bonus-rebound counter is `N`
starts with `1 + N` rebounds left, and over wall/weapon first-enter
touches (equivalently skin touches that deal no damage) it survives
exactly `1 + N` touches with nothing scheduled, the rebound counter
reaching `1 + N - k` after `k` touches; the `(N+2)`-th such touch
decrements the counter below zero and schedules the shuriken's
destruction at that touch's time.  A skin touch that deals damage instead
schedules destruction immediately, regardless of the rebound counter. -/
theorem c7_shuriken_rebounds :
    (∀ N : Int, registerShurikenRebounds N = 1 + N)
  ∧ (∀ (N : Int) (times : List ℚ) (proj : Nat) (m : List (Nat × ℚ)),
        (times.length : Int) ≤ 1 + N →
        runShurikenTouches (registerShurikenRebounds N) m proj times
          = (1 + N - times.length, m))
  ∧ (∀ (N : Int) (times : List ℚ) (proj : Nat) (tlast : ℚ),
        (times.length : Int) = 1 + N →
        runShurikenTouches (registerShurikenRebounds N) [] proj (times ++ [tlast])
          = (-1, insertA [] proj tlast))
  ∧ (∀ (bonus hpLost r : Int) (m : List (Nat × ℚ)) (proj : Nat) (now : ℚ),
        (shurikenSkinFirstEnterTouch bonus false hpLost r m proj now
          = (bonus, r - 1, if r - 1 < 0 then insertA m proj now else m))
      ∧ (proj ∈ keysA
          (shurikenSkinFirstEnterTouch bonus true hpLost r m proj now).2.2)) := by
  refine ⟨fun _ => rfl, ?_, ?_, ?_⟩
  · intro N times proj m hlen
    rw [runShurikenTouches_no_schedule proj times _ m
      (by rw [registerShurikenRebounds]; omega)]
    rw [registerShurikenRebounds]
  · intro N times proj tlast hlen
    rw [runShurikenTouches_append, runShurikenTouches_no_schedule proj times _ []
      (by rw [registerShurikenRebounds]; omega)]
    have hr : registerShurikenRebounds N - (times.length : Int) = 0 := by
      rw [registerShurikenRebounds]; omega
    simp only [hr, runShurikenTouches, shurikenTouchDestroy]
    norm_num
  · intro bonus hpLost r m proj now
    refine ⟨by simp [shurikenSkinFirstEnterTouch], ?_⟩
    simp only [shurikenSkinFirstEnterTouch, if_pos, ite_true]
    by_cases hr : r - 1 < 0
    · simp [hr, insertA, keysA]
    · simp [hr, insertA, keysA]

/-- Concrete instantiation of `c7_shuriken_rebounds`: bonus counter 2, so
three touches survive with the map empty, and a fourth touch at time 9
schedules destruction at time 9. -/
theorem c7_shuriken_rebounds_witness :
    runShurikenTouches (registerShurikenRebounds 2) [] 7 [1, 2, 3]
      = (1 + 2 - ([(1:ℚ), 2, 3].length : Int), [])
  ∧ runShurikenTouches (registerShurikenRebounds 2) [] 7 ([1, 2, 3] ++ [9])
      = (-1, insertA [] 7 9) := by
  exact ⟨c7_shuriken_rebounds.2.1 2 [1, 2, 3] 7 [] (by norm_num),
    c7_shuriken_rebounds.2.2.1 2 [1, 2, 3] 7 9 (by norm_num)⟩

/-!
## Poison accumulator (AddPoison, lines 6638-6646; UpdatePoison, lines
6210-6256)

`m_poisonBuildUp[victim] = {lastTick, ticksLeft}`.  `UpdatePoison` is a
per-victim loop body; we model one victim's entry per call, together with
the looked-up HP (`none` when `m_characterHP` has no entry for the victim)
and the `BodyValid` engine answer used to guard the kill request.
-/

/-- `AddPoison` (lines 6638-6646): on a fresh (or exhausted) accumulator
restart the tick window at `now`, then add the stackCnt. -/
def addPoison (p : Option (ℚ × Int)) (stackCnt : Int) (now : ℚ) : ℚ × Int :=
  let s := if stackCnt ≤ 0 then 1 else stackCnt
  let q := p.getD (0, 0)
  if q.2 ≤ 0 then (now, q.2 + s) else (q.1, q.2 + s)

/-- Result of one `UpdatePoison` pass over one victim's accumulator. -/
structure PoisonStep where
  lastTick : ℚ
  ticksLeft : Int
  hp : Option Int
  removed : Bool
  killRequested : Bool
  deriving Repr, DecidableEq

/-- One victim's slice of `UpdatePoison` (lines 6215-6252): tick when
`ticksLeft > 0 && now - lastTick >= 1.0`, dealing `max 0 (hp - 2)`,
decrementing the counter and advancing `lastTick`; remove the entry when
the victim has no HP entry, is already dead, reaches 0 HP (requesting a
kill if the body is valid), or when the tick counter is exhausted. -/
def updatePoisonEntry (now lastTick : ℚ) (ticksLeft : Int) (hp : Option Int)
    (bodyValid : Bool) : PoisonStep :=
  if 0 < ticksLeft ∧ 1 ≤ now - lastTick then
    match hp with
    | some h =>
      if 0 < h then
        if max 0 (h - 2) = 0 then ⟨now, 0, some (max 0 (h - 2)), true, bodyValid⟩
        else ⟨now, ticksLeft - 1, some (max 0 (h - 2)),
              decide (ticksLeft - 1 ≤ 0), false⟩
      else ⟨lastTick, ticksLeft, some h, true, false⟩
    | none => ⟨lastTick, ticksLeft, none, true, false⟩
  else ⟨lastTick, ticksLeft, hp, decide (ticksLeft ≤ 0), false⟩

/-- C9: a poison accumulator holding 3 remaining ticks starting at t=0
ticks at the 1-second cadence: calls between ticks change nothing, the
calls at t=1, t=2, t=3 each reduce HP by exactly 2 (the general tick
clamps at 0) and decrement the tick counter, and the entry is removed
after the third tick — or earlier when the victim is already dead or has
no HP entry. -/
theorem c9_poison_ticks :
    (∀ (now lastTick : ℚ) (ticks : Int) (hp : Option Int) (bv : Bool),
        0 < ticks → now - lastTick < 1 →
        updatePoisonEntry now lastTick ticks hp bv
          = ⟨lastTick, ticks, hp, false, false⟩)
  ∧ (∀ (now lastTick : ℚ) (ticks h : Int) (bv : Bool),
        0 < ticks → 1 ≤ now - lastTick → 0 < h →
        (updatePoisonEntry now lastTick ticks (some h) bv).hp
            = some (max 0 (h - 2))
        ∧ (updatePoisonEntry now lastTick ticks (some h) bv).lastTick = now)
  ∧ (∀ (h : Int) (bv : Bool), 6 < h →
        updatePoisonEntry 1 0 3 (some h) bv = ⟨1, 2, some (h - 2), false, false⟩
      ∧ updatePoisonEntry 2 1 2 (some (h - 2)) bv
          = ⟨2, 1, some (h - 4), false, false⟩
      ∧ updatePoisonEntry 3 2 1 (some (h - 4)) bv
          = ⟨3, 0, some (h - 6), true, false⟩)
  ∧ (∀ (now lastTick : ℚ) (ticks h : Int) (bv : Bool),
        0 < ticks → 1 ≤ now - lastTick → h ≤ 0 →
        (updatePoisonEntry now lastTick ticks (some h) bv).removed = true
        ∧ (updatePoisonEntry now lastTick ticks none bv).removed = true)
  ∧ (∀ (now : ℚ) (stackCnt : Int), 0 < stackCnt →
        addPoison none stackCnt now = (now, stackCnt)) := by
  refine ⟨?_, ?_, ?_, ?_, ?_⟩
  · intro now lastTick ticks hp bv hticks hlt
    have hcond : ¬ (0 < ticks ∧ 1 ≤ now - lastTick) := by
      rintro ⟨_, hc⟩; linarith
    have hrem : ¬ (ticks ≤ 0) := by omega
    simp [updatePoisonEntry, hcond, hrem]
  · intro now lastTick ticks h bv hticks hge hh
    have hcond : (0 < ticks ∧ 1 ≤ now - lastTick) := ⟨hticks, hge⟩
    by_cases hz : max 0 (h - 2) = 0 <;>
      simp [updatePoisonEntry, hcond, hh, hz]
  · intro h bv hh
    refine ⟨?_, ?_, ?_⟩
    · have hcond : (0 < (3:Int) ∧ 1 ≤ (1:ℚ) - 0) := by norm_num
      have hz : ¬ (max 0 (h - 2) = 0) := by omega
      have hm : max (0:Int) (h - 2) = h - 2 := by omega
      have hh2 : (0:Int) < h := by omega
      simp only [updatePoisonEntry, if_pos hcond, if_pos hh2, if_neg hz, hm]
      norm_num
      omega
    · have hcond : (0 < (2:Int) ∧ 1 ≤ (2:ℚ) - 1) := by norm_num
      have hz : ¬ (max 0 (h - 2 - 2) = 0) := by omega
      have hm : max (0:Int) (h - 2 - 2) = h - 4 := by omega
      have hh2 : (0:Int) < h - 2 := by omega
      simp only [updatePoisonEntry, if_pos hcond, if_pos hh2, if_neg hz, hm]
      norm_num
      omega
    · have hcond : (0 < (1:Int) ∧ 1 ≤ (3:ℚ) - 2) := by norm_num
      have hz : ¬ (max 0 (h - 4 - 2) = 0) := by omega
      have hm : max (0:Int) (h - 4 - 2) = h - 6 := by omega
      have hh2 : (0:Int) < h - 4 := by omega
      simp only [updatePoisonEntry, if_pos hcond, if_pos hh2, if_neg hz, hm]
      norm_num
      exact fun h6 => absurd h6 (by omega)
  · intro now lastTick ticks h bv hticks hge hle
    have hcond : (0 < ticks ∧ 1 ≤ now - lastTick) := ⟨hticks, hge⟩
    have hh : ¬ (0 < h) := by omega
    constructor <;> simp [updatePoisonEntry, hcond, hh]
  · intro now stackCnt hpos
    simp [addPoison, not_le.mpr hpos, le_refl]

/-- Concrete instantiation of `c9_poison_ticks`: starting HP 100, the
three ticks at t=1,2,3 leave HP 98, 96, 94 and remove the entry at the
third tick; a call at t=0.5 changes nothing; a dead victim's entry is
removed; `AddPoison` of 3 stackCnt at t=0 yields `(0, 3)`. -/
theorem c9_poison_ticks_witness :
    updatePoisonEntry (1/2) 0 3 (some 100) true = ⟨0, 3, some 100, false, false⟩
  ∧ updatePoisonEntry 1 0 3 (some 100) true = ⟨1, 2, some 98, false, false⟩
  ∧ updatePoisonEntry 2 1 2 (some 98) true = ⟨2, 1, some 96, false, false⟩
  ∧ updatePoisonEntry 3 2 1 (some 96) true = ⟨3, 0, some 94, true, false⟩
  ∧ (updatePoisonEntry 1 0 3 (some 0) true).removed = true
  ∧ addPoison none 3 0 = (0, 3) := by
  have h := c9_poison_ticks
  have hs := h.2.2.1 100 true (by norm_num)
  refine ⟨h.1 (1/2) 0 3 (some 100) true (by norm_num) (by norm_num),
    by simpa using hs.1, by simpa using hs.2.1, by simpa using hs.2.2,
    (h.2.2.2.1 1 0 3 0 true (by norm_num) (by norm_num) (by norm_num)).1,
    h.2.2.2.2 0 3 (by norm_num)⟩

/-!
## HP clamping and the kill pass
(ProcessHitSensors damage application, lines 5234-5241 and 5494-5496;
RequestKillCharacter, lines 7790-7794; ProcessPendingCharacterDeaths,
lines 5599-5615)
-/

/-- The HP update of a successful hit (lines 5236-5239) plus its kill
request (lines 5494-5496): damage applies only when the victim is alive
and the damage positive, clamping at 0 (`hp = max(0, hp - dmg)`); `hp <
hpBefore` then always holds, and a kill is requested iff the new HP is 0. -/
def hitDamageStep (hp dmg : Int) : Int × Bool :=
  if 0 < hp ∧ 0 < dmg then (max 0 (hp - dmg), decide (max 0 (hp - dmg) = 0))
  else (hp, false)

/-- `RequestKillCharacter` (lines 7790-7794): append to the kill queue. -/
def requestKillCharacter (queue : List Nat) (body : Nat) : List Nat :=
  queue ++ [body]

/-- `std::unique` over a sorted range: drop adjacent duplicates. -/
def dedupAdj : List Nat → List Nat
  | [] => []
  | [a] => [a]
  | a :: b :: l => if a = b then dedupAdj (b :: l) else a :: dedupAdj (b :: l)

/-- `ProcessPendingCharacterDeaths` (lines 5604-5612): sort the kill queue
by stored body id, `std::unique` it, and run `KillCharacterNow` once per
surviving entry — this is the processing order of the kill pass. -/
def processPendingDeathsOrder (queue : List Nat) : List Nat :=
  dedupAdj (List.insertionSort (· ≤ ·) queue)

theorem dedupAdj_cons_cons (a b : Nat) (l : List Nat) :
    dedupAdj (a :: b :: l) =
      if a = b then dedupAdj (b :: l) else a :: dedupAdj (b :: l) := rfl

theorem mem_dedupAdj : ∀ (l : List Nat) (x : Nat), x ∈ dedupAdj l ↔ x ∈ l := by
  intro l
  induction l with
  | nil => intro x; simp [dedupAdj]
  | cons a l ih =>
    cases l with
    | nil => intro x; simp [dedupAdj]
    | cons b m =>
      intro x
      by_cases hab : a = b
      · subst hab
        rw [dedupAdj_cons_cons, if_pos rfl, ih x]
        simp only [List.mem_cons]
        tauto
      · rw [dedupAdj_cons_cons, if_neg hab]
        simp only [List.mem_cons, ih x, List.mem_cons]

theorem nodup_dedupAdj : ∀ l : List Nat, List.Sorted (· ≤ ·) l →
    (dedupAdj l).Nodup := by
  intro l
  induction l with
  | nil => intro _; simp [dedupAdj]
  | cons a l ih =>
    cases l with
    | nil => intro _; simp [dedupAdj]
    | cons b m =>
      intro hs
      have hs' : List.Sorted (· ≤ ·) (b :: m) := hs.of_cons
      by_cases hab : a = b
      · rw [dedupAdj_cons_cons, if_pos hab]
        exact ih hs'
      · rw [dedupAdj_cons_cons, if_neg hab]
        refine List.nodup_cons.mpr ⟨?_, ih hs'⟩
        intro hmem
        have hx : a ∈ b :: m := (mem_dedupAdj (b :: m) a).mp hmem
        have hab' : a ≤ b := (List.sorted_cons.mp hs).1 b (List.mem_cons_self b m)
        have halt : a < b := lt_of_le_of_ne hab' hab
        rcases List.mem_cons.mp hx with h | h
        · exact hab h
        · have hbx : b ≤ a := (List.sorted_cons.mp hs').1 a h
          omega

/-- C3: damaged HP is clamped with `max 0 (hp - dmg)` — never negative and
never increasing (hit path and poison tick alike); a hit's kill request is
emitted exactly when the clamped HP reached 0 from a live victim; and the
kill queue is sorted and adjacent-deduplicated before the step-end kill
pass, so each requested character is processed exactly once, never more. -/
theorem c3_hp_clamp_and_single_kill :
    (∀ hp dmg : Int, 0 ≤ hp →
        0 ≤ (hitDamageStep hp dmg).1 ∧ (hitDamageStep hp dmg).1 ≤ hp)
  ∧ (∀ hp dmg : Int,
        (hitDamageStep hp dmg).2 = true ↔
          0 < hp ∧ 0 < dmg ∧ (hitDamageStep hp dmg).1 = 0)
  ∧ (∀ (now lastTick : ℚ) (ticks h : Int) (bv : Bool), 0 ≤ h →
        ∃ h', (updatePoisonEntry now lastTick ticks (some h) bv).hp = some h'
          ∧ 0 ≤ h' ∧ h' ≤ h)
  ∧ (∀ (queue : List Nat) (id : Nat),
        (id ∈ queue → (processPendingDeathsOrder queue).count id = 1)
      ∧ (id ∉ queue → (processPendingDeathsOrder queue).count id = 0)) := by
  refine ⟨?_, ?_, ?_, ?_⟩
  · intro hp dmg hhp
    by_cases hc : 0 < hp ∧ 0 < dmg <;> simp [hitDamageStep, hc] <;> omega
  · intro hp dmg
    by_cases hc : 0 < hp ∧ 0 < dmg
    · simp only [hitDamageStep, if_pos hc, decide_eq_true_eq]
      constructor
      · intro hz; exact ⟨hc.1, hc.2, hz⟩
      · intro hz; exact hz.2.2
    · simp only [hitDamageStep, if_neg hc, Bool.false_eq_true, false_iff]
      intro hcon
      exact hc ⟨hcon.1, hcon.2.1⟩
  · intro now lastTick ticks h bv hh
    by_cases hcond : 0 < ticks ∧ 1 ≤ now - lastTick
    · by_cases hpos : 0 < h
      · by_cases hz : max 0 (h - 2) = 0 <;>
          · refine ⟨max 0 (h - 2), ?_, by omega, by omega⟩
            simp [updatePoisonEntry, hcond, hpos, hz]
      · exact ⟨h, by simp [updatePoisonEntry, hcond, hpos], hh, le_refl h⟩
    · exact ⟨h, by simp [updatePoisonEntry, hcond], hh, le_refl h⟩
  · intro queue id
    have hperm := List.perm_insertionSort (· ≤ ·) queue
    have hsorted : List.Sorted (· ≤ ·) (List.insertionSort (· ≤ ·) queue) :=
      List.sorted_insertionSort (· ≤ ·) queue
    have hmem : id ∈ processPendingDeathsOrder queue ↔ id ∈ queue := by
      rw [processPendingDeathsOrder, mem_dedupAdj]
      exact hperm.mem_iff
    constructor
    · intro hin
      exact List.count_eq_one_of_mem
        (nodup_dedupAdj _ hsorted) (hmem.mpr hin)
    · intro hout
      exact List.count_eq_zero.mpr (fun hc => hout (hmem.mp hc))

/-- Concrete instantiation of `c3_hp_clamp_and_single_kill`: damage 7 on
HP 5 clamps to 0 and requests a kill; a poison tick on HP 1 clamps to 0;
the kill queue `[3, 1, 3]` processes character 3 exactly once. -/
theorem c3_hp_clamp_and_single_kill_witness :
    (0 ≤ (hitDamageStep 5 7).1 ∧ (hitDamageStep 5 7).1 ≤ 5)
  ∧ ((hitDamageStep 5 7).2 = true ↔
      0 < (5:Int) ∧ 0 < (7:Int) ∧ (hitDamageStep 5 7).1 = 0)
  ∧ (∃ h', (updatePoisonEntry 1 0 3 (some 1) true).hp = some h'
      ∧ 0 ≤ h' ∧ h' ≤ 1)
  ∧ (processPendingDeathsOrder [3, 1, 3]).count 3 = 1 := by
  have h := c3_hp_clamp_and_single_kill
  exact ⟨h.1 5 7 (by norm_num), h.2.1 5 7,
    h.2.2.1 1 0 3 1 true (by norm_num),
    (h.2.2.2 [3, 1, 3] 3).1 (by norm_num)⟩

/-!
## Vampire-knife lifesteal and the HP range invariant
(ProcessHitSensors, lines 5346-5367; character spawn HP, e.g.
CreateCharacterPoisonBlowgun line 11535)
-/

/-- `healAmount = std::max(1, dmg / (1 + healCount))` (line 5357). -/
def vampireHealAmount (dmg healCount : Int) : Int :=
  max 1 (dmg / (1 + healCount))

/-- The owner-HP update of the vampire-knife lifesteal (line 5359):
`hp = std::min(100, hp + healAmount)`. -/
def vampireHeal (ownerHp dmg healCount : Int) : Int :=
  min 100 (ownerHp + vampireHealAmount dmg healCount)

/-- Spawn HP of every character (`m_characterHP[...] = 100`, e.g. line
11535). -/
def spawnHP : Int := 100

/-- C10: the lifesteal heal clamps the owner's HP at an upper bound of
100 via `min 100 (hp + healAmount)` with `healAmount ≥ 1`, and never drops
a nonnegative HP below 0; combined with every damage path clamping at 0
(hit damage and poison ticks) and spawn HP 100, each character's HP stays
within [0, 100] across every modelled HP-mutating operation. -/
theorem c10_hp_range_invariant :
    (∀ ownerHp dmg healCount : Int,
        vampireHeal ownerHp dmg healCount
          = min 100 (ownerHp + vampireHealAmount dmg healCount)
      ∧ 1 ≤ vampireHealAmount dmg healCount
      ∧ (0 ≤ ownerHp → 0 ≤ vampireHeal ownerHp dmg healCount
          ∧ vampireHeal ownerHp dmg healCount ≤ 100)
      ∧ (ownerHp ≤ 100 → ownerHp ≤ vampireHeal ownerHp dmg healCount))
  ∧ (∀ hp dmg : Int, 0 ≤ hp → hp ≤ 100 →
        0 ≤ (hitDamageStep hp dmg).1 ∧ (hitDamageStep hp dmg).1 ≤ 100)
  ∧ (∀ (now lastTick : ℚ) (ticks h : Int) (bv : Bool), 0 ≤ h → h ≤ 100 →
        ∀ h', (updatePoisonEntry now lastTick ticks (some h) bv).hp = some h' →
          0 ≤ h' ∧ h' ≤ 100)
  ∧ (0 ≤ spawnHP ∧ spawnHP ≤ 100) := by
  refine ⟨?_, ?_, ?_, by norm_num [spawnHP]⟩
  · intro ownerHp dmg healCount
    refine ⟨rfl, ?_, ?_, ?_⟩ <;> (simp [vampireHeal, vampireHealAmount]; try omega)
  · intro hp dmg h0 h100
    by_cases hc : 0 < hp ∧ 0 < dmg <;> simp [hitDamageStep, hc] <;> omega
  · intro now lastTick ticks h bv h0 h100 h' hh'
    by_cases hcond : 0 < ticks ∧ 1 ≤ now - lastTick
    · by_cases hpos : 0 < h
      · by_cases hz : max 0 (h - 2) = 0 <;>
          · simp [updatePoisonEntry, hcond, hpos, hz] at hh'
            omega
      · simp [updatePoisonEntry, hcond, hpos] at hh'
        omega
    · simp [updatePoisonEntry, hcond] at hh'
      omega

/-- Concrete instantiation of `c10_hp_range_invariant`: healing owner HP
99 by damage 8 with heal count 0 clamps at 100; damage and poison keep HP
100 within range. -/
theorem c10_hp_range_invariant_witness :
    (0 ≤ vampireHeal 99 8 0 ∧ vampireHeal 99 8 0 ≤ 100)
  ∧ (99 ≤ vampireHeal 99 8 0)
  ∧ (0 ≤ (hitDamageStep 100 3).1 ∧ (hitDamageStep 100 3).1 ≤ 100)
  ∧ (∀ h', (updatePoisonEntry 1 0 3 (some 100) true).hp = some h' →
      0 ≤ h' ∧ h' ≤ 100) := by
  have h := c10_hp_range_invariant
  exact ⟨(h.1 99 8 0).2.2.1 (by norm_num), (h.1 99 8 0).2.2.2 (by norm_num),
    h.2.1 100 3 (by norm_num) (by norm_num),
    h.2.2.1 1 0 3 100 true (by norm_num) (by norm_num)⟩

/-!
## Character destruction and registry purge (KillCharacterNow, lines
7796-7956)

The registry below holds every gameplay table that is keyed by a
character's or a weapon's stored body id.  `killCharacterNow` mirrors the
purge sequence of the source; death VFX (`SpawnDeathPoof`, leech rays),
sounds, the global weapon-slot/character-slot pointers, the physics-engine
`b2DestroyBody` calls, and the turret/owned-projectile blocks (which erase
only tables keyed by turret or projectile ids) are engine/VFX-side and are
not part of the registry state modelled here.  Shape enumeration
(`b2Body_GetShapes`) is abstracted as the `shapesOf` function and handle
liveness as `bodyValidF`. -/

/-- The handle-keyed gameplay registry tables. -/
structure Registry where
  characterHP : List (Nat × Int)
  characterWeapon : List (Nat × Nat)
  characterSkinShape : List (Nat × Nat)
  lastHitBlinkTime : List (Nat × ℚ)
  electricStaffFreezeDuration : List (Nat × ℚ)
  poisonBuildUp : List (Nat × (ℚ × Int))
  slashBuildUp : List (Nat × (ℚ × Int))
  vampireKnifeHealCount : List (Nat × Int)
  vampireKnifeTotalHealed : List (Nat × Int)
  weaponDamage : List (Nat × Int)
  weaponOwner : List (Nat × Nat)
  weaponToJoint : List (Nat × Nat)
  shapeToCharacter : List (Nat × Nat)
  shapeBaseColor : List (Nat × Nat)
  activeFreezes : List FreezeData
  pairOverlap : List ((Nat × Nat) × Int)
  damageCooldown : List ((Nat × Nat) × ℚ)
  deriving Repr, DecidableEq

/-- Erase a list of shape ids from the shape-to-character and
shape-base-color maps (the per-shape loops at lines 7818-7825 and
7850-7857). -/
def eraseShapes (stc sbc : List (Nat × Nat)) :
    List Nat → List (Nat × Nat) × List (Nat × Nat)
  | [] => (stc, sbc)
  | s :: rest => eraseShapes (eraseA stc s) (eraseA sbc s) rest

/-- Erase every pair-keyed entry whose victim or attacker is `key`
(lines 7898-7920). -/
def purgePairs {α : Type} (m : List ((Nat × Nat) × α)) (key : Nat) :
    List ((Nat × Nat) × α) :=
  m.filter (fun e => !(decide (e.1.1 = key) || decide (e.1.2 = key)))

/-- `KillCharacterNow` (lines 7796-7956) restricted to the registry
tables: remove the character's freeze records and char-keyed entries,
purge its shapes' map entries, then — when the character owns a weapon —
remove the weapon's freeze records, the weapon shapes' entries and the
weapon-keyed `m_weaponDamage` / `m_weaponOwner` entries and the
`m_characterWeapon` link, purge the pair-keyed maps of keys naming the
character, and finally drop the character's HP entry.  (The source never
erases `m_weaponToJoint` or `m_slashBuildUp` here.) -/
def killCharacterNow (shapesOf : Nat → List Nat) (bodyValidF : Nat → Bool)
    (r : Registry) (charBody : Nat) : Registry :=
  let charKey := charBody
  let r1 := { r with
    activeFreezes := r.activeFreezes.filter (fun f => !decide (f.body = charBody)),
    lastHitBlinkTime := eraseA r.lastHitBlinkTime charKey,
    electricStaffFreezeDuration := eraseA r.electricStaffFreezeDuration charKey,
    poisonBuildUp := eraseA r.poisonBuildUp charKey,
    vampireKnifeHealCount := eraseA r.vampireKnifeHealCount charKey,
    vampireKnifeTotalHealed := eraseA r.vampireKnifeTotalHealed charKey }
  let r2 :=
    if bodyValidF charBody then
      let p := eraseShapes r1.shapeToCharacter r1.shapeBaseColor (shapesOf charBody)
      { r1 with shapeToCharacter := p.1, shapeBaseColor := p.2 }
    else r1
  let r3 := { r2 with characterSkinShape := eraseA r2.characterSkinShape charKey }
  let r4 :=
    match lookupA r3.characterWeapon charKey with
    | some weaponBody =>
      let wKey := weaponBody
      let ra := { r3 with activeFreezes :=
        r3.activeFreezes.filter (fun f => !decide (f.body = weaponBody)) }
      let rb :=
        if bodyValidF weaponBody then
          let p := eraseShapes ra.shapeToCharacter ra.shapeBaseColor (shapesOf weaponBody)
          { ra with shapeToCharacter := p.1, shapeBaseColor := p.2 }
        else ra
      { rb with weaponDamage := eraseA rb.weaponDamage wKey,
                weaponOwner := eraseA rb.weaponOwner wKey,
                characterWeapon := eraseA rb.characterWeapon charKey }
    | none => r3
  let r5 := { r4 with damageCooldown := purgePairs r4.damageCooldown charKey,
                      pairOverlap := purgePairs r4.pairOverlap charKey }
  { r5 with characterHP := eraseA r5.characterHP charKey }

/-- A concrete pre-death registry: character 1 owns weapon 2 (joint 9),
with full bookkeeping, a slash accumulator on the character, and a
damage-cooldown pair whose attacker is the weapon body. -/
def preDeathRegistry : Registry :=
  { characterHP := [(1, 50)]
    characterWeapon := [(1, 2)]
    characterSkinShape := [(1, 11)]
    lastHitBlinkTime := [(1, 4)]
    electricStaffFreezeDuration := []
    poisonBuildUp := [(1, (3, 2))]
    slashBuildUp := [(1, (3, 2))]
    vampireKnifeHealCount := [(1, 1)]
    vampireKnifeTotalHealed := [(1, 5)]
    weaponDamage := [(2, 3)]
    weaponOwner := [(2, 1)]
    weaponToJoint := [(2, 9)]
    shapeToCharacter := [(11, 1)]
    shapeBaseColor := [(11, 7)]
    activeFreezes := [{ body := 1, endTime := 6 }, { body := 2, endTime := 6 }]
    pairOverlap := [((1, 5), 1)]
    damageCooldown := [((3, 2), 5)] }

/-- C2 (code_bug evaluation): killing character 1 purges the char-keyed
tables and the weapon's `m_weaponDamage`/`m_weaponOwner` entries, but the
weapon's `m_weaponToJoint` entry, the character's `m_slashBuildUp`
accumulator and the damage-cooldown pair keyed by the weapon as attacker
all survive — lookups by the old handles still return stale hits,
violating the spec's lockstep-purge invariant. -/
theorem c2_kill_purges_incomplete :
    lookupA (killCharacterNow (fun b => if b = 1 then [11] else [])
        (fun _ => true) preDeathRegistry 1).weaponToJoint 2 = some 9
  ∧ lookupA (killCharacterNow (fun b => if b = 1 then [11] else [])
        (fun _ => true) preDeathRegistry 1).slashBuildUp 1 = some (3, 2)
  ∧ ((3, 2), (5:ℚ)) ∈ (killCharacterNow (fun b => if b = 1 then [11] else [])
        (fun _ => true) preDeathRegistry 1).damageCooldown
  ∧ lookupA (killCharacterNow (fun b => if b = 1 then [11] else [])
        (fun _ => true) preDeathRegistry 1).weaponOwner 2 = none
  ∧ lookupA (killCharacterNow (fun b => if b = 1 then [11] else [])
        (fun _ => true) preDeathRegistry 1).weaponDamage 2 = none
  ∧ lookupA (killCharacterNow (fun b => if b = 1 then [11] else [])
        (fun _ => true) preDeathRegistry 1).characterHP 1 = none
  ∧ lookupA (killCharacterNow (fun b => if b = 1 then [11] else [])
        (fun _ => true) preDeathRegistry 1).shapeToCharacter 11 = none
  ∧ (killCharacterNow (fun b => if b = 1 then [11] else [])
        (fun _ => true) preDeathRegistry 1).activeFreezes = [] := by
  refine ⟨rfl, rfl, ?_, rfl, rfl, rfl, rfl, rfl⟩
  show ((3, 2), (5:ℚ)) ∈ [((3, 2), (5:ℚ))]
  exact List.mem_singleton.mpr rfl

/-!
## Explosion flush (ProcessProjectileDestructions, lines 5589-5596;
TriggerExplosion, lines 7130-7204)

`TriggerExplosion` walks `kAllCharacters` (one entry per character, not
per shape), skips the owner, and damages each character whose centre lies
within `m_explosionRadius + kCharacterRadius` of the blast centre.
`b2Distance(p, c) <= d` is expressed squared to stay in ℚ. -/

/-- One character as `TriggerExplosion` sees it: stored id, centre
position, HP. -/
structure CharState where
  id : Nat
  pos : ℚ × ℚ
  hp : Int
  deriving Repr, DecidableEq

/-- `kCharacterRadius = 1.5f` (line 4528). -/
def kCharacterRadius : ℚ := 3 / 2

/-- `b2Distance(p, c) <= d` (for `d ≥ 0`), written on squares. -/
def withinDist (p c : ℚ × ℚ) (d : ℚ) : Bool :=
  decide ((p.1 - c.1) ^ 2 + (p.2 - c.2) ^ 2 ≤ d ^ 2)

/-- The explosion damage with the per-projectile override (lines
7138-7142): `m_weaponDamage[proj]` when present and positive, otherwise
`m_explosionDamage`. -/
def explosionDamageOf (weaponDamage : Option Int) (explosionDamage : Int) : Int :=
  match weaponDamage with
  | some d => if 0 < d then d else explosionDamage
  | none => explosionDamage

/-- The per-character body of the `TriggerExplosion` loop (lines
7173-7204): skip the owner; a living character within
`radius + kCharacterRadius` takes `max 0 (hp - damage)`; a kill is
requested iff the HP decreased to exactly 0. -/
def explodeChar (owner : Option Nat) (center : ℚ × ℚ) (radius : ℚ)
    (damage : Int) (c : CharState) : CharState × Bool :=
  if some c.id = owner then (c, false)
  else if withinDist c.pos center (radius + kCharacterRadius) then
    if 0 < c.hp then
      let hp' := max 0 (c.hp - damage)
      ({ c with hp := hp' }, decide (hp' < c.hp ∧ hp' = 0))
    else (c, false)
  else (c, false)

/-- `TriggerExplosion`'s damage sweep: every character is visited exactly
once (the loop ranges over `kAllCharacters`, not over shapes). -/
def triggerExplosion (owner : Option Nat) (center : ℚ × ℚ) (radius : ℚ)
    (damage : Int) (chars : List CharState) : List CharState × List Nat :=
  (chars.map (fun c => (explodeChar owner center radius damage c).1),
   (chars.filter (fun c => (explodeChar owner center radius damage c).2)).map
     CharState.id)

/-- `ProcessProjectileDestructions` (lines 5573-5597) with the
explosion-class hook: pop the due schedule entries, fire
`TriggerExplosion` for each popped body in the explosion set (line
5591-5593) — each such firing happens before that body's destruction —
then destroy all popped bodies.  Returns (remaining map, destroyed
bodies, bodies whose explosion fired). -/
def processDestructionsExplosions (m : List (Nat × ℚ)) (explosionSet : List Nat)
    (now : ℚ) : List (Nat × ℚ) × List Nat × List Nat :=
  ((popDueDestructions m now).1, (popDueDestructions m now).2,
   (popDueDestructions m now).2.filter (fun id => decide (id ∈ explosionSet)))

theorem nodup_popDue (m : List (Nat × ℚ)) (now : ℚ)
    (h : (keysA m).Nodup) : ((popDueDestructions m now).2).Nodup := by
  have hsub : List.Sublist (popDueDestructions m now).2 (keysA m) := by
    simpa [popDueDestructions, keysA] using
      (List.filter_sublist (l := m) (p := fun e => decide (now ≥ e.2))).map Prod.fst
  exact h.sublist hsub

/-- C8: at flush time, an explosion-class projectile whose scheduled
timestamp has arrived fires `TriggerExplosion` exactly once, is destroyed
in the same flush, and its schedule entry is consumed; the damage sweep
visits each character exactly once, damaging (by `max 0 (hp - damage)`)
exactly the living non-owner characters within
`explosionRadius + kCharacterRadius` of the blast centre and leaving all
others untouched — independent of how many shapes a character has, since
the sweep enumerates characters. -/
theorem c8_explosion_flush :
    (∀ (m : List (Nat × ℚ)) (explosionSet : List Nat) (now : ℚ)
        (projId : Nat) (t : ℚ),
        (keysA m).Nodup → lookupA m projId = some t → t ≤ now →
        projId ∈ explosionSet →
        ((processDestructionsExplosions m explosionSet now).2.2).count projId = 1
        ∧ projId ∈ (processDestructionsExplosions m explosionSet now).2.1
        ∧ lookupA (processDestructionsExplosions m explosionSet now).1 projId
            = none)
  ∧ (∀ (owner : Option Nat) (center : ℚ × ℚ) (radius : ℚ) (damage : Int)
        (chars : List CharState),
        (triggerExplosion owner center radius damage chars).1
          = chars.map (fun c =>
              if some c.id ≠ owner
                  ∧ withinDist c.pos center (radius + kCharacterRadius) = true
                  ∧ 0 < c.hp
              then { c with hp := max 0 (c.hp - damage) } else c))
  ∧ (∀ (wd explosionDamage : Int), 0 < wd →
        explosionDamageOf (some wd) explosionDamage = wd) := by
  refine ⟨?_, ?_, ?_⟩
  · intro m explosionSet now projId t hnd hl ht hexp
    have hspec := (popDueDestructions_spec m now projId t hnd hl).1 ht
    have hmem : projId ∈ (popDueDestructions m now).2 := hspec.1
    have hmemf : projId ∈ (popDueDestructions m now).2.filter
        (fun id => decide (id ∈ explosionSet)) :=
      List.mem_filter.mpr ⟨hmem, by simpa using hexp⟩
    have hndf : ((popDueDestructions m now).2.filter
        (fun id => decide (id ∈ explosionSet))).Nodup :=
      (nodup_popDue m now hnd).sublist (List.filter_sublist _)
    exact ⟨List.count_eq_one_of_mem hndf hmemf, hmem, hspec.2⟩
  · intro owner center radius damage chars
    simp only [triggerExplosion]
    refine List.map_congr_left ?_
    intro c _
    by_cases ho : some c.id = owner
    · simp [explodeChar, ho]
    · by_cases hw : withinDist c.pos center (radius + kCharacterRadius) = true
      · by_cases hh : 0 < c.hp
        · simp [explodeChar, ho, hw, hh]
        · simp [explodeChar, ho, hw, hh]
      · simp only [Bool.not_eq_true] at hw
        simp [explodeChar, ho, hw]
  · intro wd explosionDamage hwd
    simp [explosionDamageOf, hwd]

/-- Concrete instantiation of `c8_explosion_flush`: projectile 4 scheduled
at t=5 flushes at now=5 with exactly one explosion firing; a blast at the
origin with radius 2 damages the in-range non-owner character 2 once and
spares the out-of-range character 3 and the owner 1. -/
theorem c8_explosion_flush_witness :
    ((processDestructionsExplosions [(4, 5)] [4] 5).2.2).count 4 = 1
  ∧ (triggerExplosion (some 1) (0, 0) 2 3
      [⟨1, (0, 0), 100⟩, ⟨2, (3, 0), 100⟩, ⟨3, (9, 9), 100⟩]).1
      = [⟨1, (0, 0), 100⟩, ⟨2, (3, 0), 97⟩, ⟨3, (9, 9), 100⟩] := by
  constructor
  · exact ((c8_explosion_flush.1 [(4, 5)] [4] 5 4 5 (by simp [keysA]) rfl
      le_rfl (by simp)).1)
  · rw [c8_explosion_flush.2.1 (some 1) (0, 0) 2 3
      [⟨1, (0, 0), 100⟩, ⟨2, (3, 0), 100⟩, ⟨3, (9, 9), 100⟩]]
    norm_num [withinDist, kCharacterRadius]

end HitPipeline
